import Mathlib

/-!
Verification of the FastStack engine core (`src/fs.c`) and the CLI option
parser (`src/engine/option.c`).

The engine is shallowly embedded: the `FSGame` struct becomes a Lean
structure, the field `b` a function `Nat → Nat → Nat` (row, column ↦ cell
value), C `float` accumulators become `ℚ`, and `fsGameTick`'s `goto
beginTick` re-entries become direct calls between the per-state step
functions (the re-entry graph `LINES → ARE → NEW_PIECE → GAMEOVER` is
acyclic).

Parts of the repository referenced by `fs.c` are not present in `src/`
(`fsTypes.h`, `fsConfig.h`, `fsDefault.h`, `fsInternal.h`, `fsControl.h`,
`fsTables.c`, `fsRand.c`); the definitions that stand in for them carry a
`Modelled from the spec:` note.
-/

namespace FastStack

/-- Piece identity, `enum PieceType` of `fs.h` (7 tetrominoes plus the
`FS_NONE` sentinel). -/
inductive Piece
  | I | J | L | O | S | T | Z | NONE
deriving DecidableEq, Repr

/-- Game states, `enum GameState` of `fs.h`. -/
inductive GameState
  | READY | GO | FALLING | LANDED | ARE | NEW_PIECE | LINES | QUIT | GAMEOVER | UNKNOWN
deriving DecidableEq, Repr

/-- Lock-delay reset styles, `enum LockStyle` of `fs.h`. -/
inductive LockStyle
  | ENTRY | STEP | MOVE
deriving DecidableEq, Repr

/-- Per-tick input snapshot. Modelled from the spec: `fsControl.h` is not in
`src/`, so the `extra` bitset of `FSInput` is modelled as one Bool per flag
(`FSI_HOLD`, `FSI_HARD_DROP`, `FSI_FINESSE_DIRECTION`, `FSI_FINESSE_ROTATION`),
and `movement`, `rotation`, `gravity` are the signed integers the spec
describes. -/
structure FSInput where
  rotation : Int := 0
  movement : Int := 0
  gravity : Int := 0
  hold : Bool := false
  hardDrop : Bool := false
  finesseDirection : Bool := false
  finesseRotation : Bool := false
deriving DecidableEq, Repr

/-- A wallkick table: for each rotation state `theta`, the ordered list of
`(dx, dy)` kick tests. The C table rows are fixed-size arrays terminated by a
`WK_END` sentinel; the list end models the sentinel. -/
def WallkickTable : Type := Nat → List (Int × Int)

/-- The `emptyWallkickTable`. Modelled from the spec: `fsTables.c` is not in
`src/`; per spec 4.2 a negative kick index selects the empty table, which has
no kicks besides `(0, 0)`. -/
def emptyWallkickTable : WallkickTable := fun _ => [(0, 0)]

/-- The `struct FSRotationSystem` of `fs.h`: entry thetas and kick table indices
per piece (a negative index selects the empty table), plus the kick tables
themselves. `entryOffset` is never read by `fs.c`, so it is omitted. The
concrete tables live in `fsTables.c`, which is not in `src/`; the embedding
keeps the system abstract. -/
structure FSRotationSystem where
  entryTheta : Piece → Nat
  kicksL : Piece → Int
  kicksR : Piece → Int
  kicksH : Piece → Int
  kickTables : Nat → WallkickTable

/-- The `FSGame` struct of `fs.h`, restricted to the fields `fs.c` reads or
writes. Integer fields whose exact C width is declared in the missing
`fsTypes.h` are modelled as `Int`/`Nat`; the `float` fields `actualY` and
`gravity` are modelled as `ℚ` (the claims under study concern the ordering
and truncation structure of the accumulator, not float rounding). The
randomizer (`fsRand.c`, not in `src/`) is modelled from the spec as a
deterministic stream `randStream` read at index `randIndex`. The rotation
system is stored directly instead of as an index into the static table of
the missing `fsTables.c`. -/
structure FSGame where
  b : Nat → Nat → Nat
  fieldWidth : Nat
  fieldHeight : Nat
  nextPiece : List Piece
  randStream : Nat → Piece
  randIndex : Nat
  piece : Piece
  x : Int
  y : Int
  actualY : ℚ
  hardDropY : Int
  theta : Nat
  finesse : Nat
  finessePieceDirection : Nat
  finessePieceRotation : Nat
  msPerTick : Nat
  areDelay : Nat
  areTimer : Nat
  totalTicks : Nat
  lockStyle : LockStyle
  lockDelay : Nat
  lockTimer : Nat
  rotationSystem : FSRotationSystem
  gravity : ℚ
  state : GameState
  lastInput : FSInput
  holdAvailable : Bool
  holdPiece : Piece
  linesCleared : Nat
  blocksPlaced : Nat
  goal : Nat

/-- The `TICKS` macro. Modelled from the spec (`fsInternal.h` is not in
`src/`): `ticks(ms) = ms / msPerTick`. -/
def TICKS (f : FSGame) (ms : Nat) : Nat := ms / f.msPerTick

/-- Static per-piece per-rotation block offsets (`pieceOffsets` in `fs.c`),
SRS-relative. `FS_NONE` has no offsets (the C code would read out of bounds;
it is never locked or collision-tested in reachable states). -/
def pieceOffsets : Piece → Nat → List (Int × Int)
  | Piece.I, 0 => [(0, 1), (1, 1), (2, 1), (3, 1)]
  | Piece.I, 1 => [(2, 0), (2, 1), (2, 2), (2, 3)]
  | Piece.I, 2 => [(0, 2), (1, 2), (2, 2), (3, 2)]
  | Piece.I, _ => [(1, 0), (1, 1), (1, 2), (1, 3)]
  | Piece.J, 0 => [(0, 0), (0, 1), (1, 1), (2, 1)]
  | Piece.J, 1 => [(1, 0), (1, 1), (1, 2), (2, 0)]
  | Piece.J, 2 => [(0, 1), (1, 1), (2, 1), (2, 2)]
  | Piece.J, _ => [(0, 2), (1, 0), (1, 1), (1, 2)]
  | Piece.L, 0 => [(0, 1), (1, 1), (2, 0), (2, 1)]
  | Piece.L, 1 => [(1, 0), (1, 1), (1, 2), (2, 2)]
  | Piece.L, 2 => [(0, 1), (0, 2), (1, 1), (2, 1)]
  | Piece.L, _ => [(0, 0), (1, 0), (1, 1), (1, 2)]
  | Piece.O, _ => [(1, 0), (1, 1), (2, 0), (2, 1)]
  | Piece.S, 0 => [(0, 1), (1, 0), (1, 1), (2, 0)]
  | Piece.S, 1 => [(1, 0), (1, 1), (2, 1), (2, 2)]
  | Piece.S, 2 => [(0, 2), (1, 1), (1, 2), (2, 1)]
  | Piece.S, _ => [(0, 0), (0, 1), (1, 1), (1, 2)]
  | Piece.T, 0 => [(0, 1), (1, 0), (1, 1), (2, 1)]
  | Piece.T, 1 => [(1, 0), (1, 1), (1, 2), (2, 1)]
  | Piece.T, 2 => [(0, 1), (1, 1), (1, 2), (2, 1)]
  | Piece.T, _ => [(0, 1), (1, 0), (1, 1), (1, 2)]
  | Piece.Z, 0 => [(0, 0), (1, 0), (1, 1), (2, 1)]
  | Piece.Z, 1 => [(1, 1), (1, 2), (2, 0), (2, 1)]
  | Piece.Z, 2 => [(0, 1), (1, 1), (1, 2), (2, 2)]
  | Piece.Z, _ => [(0, 1), (0, 2), (1, 0), (1, 1)]
  | Piece.NONE, _ => []

/-- Function `pieceColors` of `fs.c`: the cell value stored when a piece locks.
`FS_NONE` is mapped to 0 (the C array has only 7 entries and is never
indexed by `FS_NONE`). -/
def pieceColors : Piece → Nat
  | Piece.I => 0x10
  | Piece.J => 0x20
  | Piece.L => 0x30
  | Piece.O => 0x40
  | Piece.S => 0x50
  | Piece.T => 0x60
  | Piece.Z => 0x70
  | Piece.NONE => 0

/-- Function `fsPieceToBlocks` of `fs.c`: project a piece at `(x, y, theta)` to its 4
cells, after adding the rotation system's `entryTheta` modulo 4. -/
def fsPieceToBlocks (f : FSGame) (piece : Piece) (x y : Int) (theta : Nat) :
    List (Int × Int) :=
  let calcTheta := (theta + f.rotationSystem.entryTheta piece) % 4
  (pieceOffsets piece calcTheta).map (fun p => (p.1 + x, p.2 + y))

/-- Function `isOccupied` of `fs.c`: outside the field counts as occupied; inside, a
cell is occupied when its value is strictly greater than 1. -/
def isOccupied (f : FSGame) (x y : Int) : Bool :=
  if x < 0 ∨ (f.fieldWidth : Int) ≤ x ∨ y < 0 ∨ (f.fieldHeight : Int) ≤ y then
    true
  else
    decide (1 < f.b y.toNat x.toNat)

/-- Function `isCollision` of `fs.c`: the current piece collides at `(x, y, theta)`
iff any of its 4 projected cells is occupied. -/
def isCollision (f : FSGame) (x y : Int) (theta : Nat) : Bool :=
  (fsPieceToBlocks f f.piece x y theta).any (fun p => isOccupied f p.1 p.2)

/-- The probe loop of `updateHardDropY` in `fs.c`: advance `y` downward while
no collision occurs. The C `while` loop is unbounded; `fuel` bounds the
recursion (any `y` at or below the field floor collides for a real piece, so
`fieldHeight + 8` steps always suffice from the positions the engine uses). -/
def hardDropProbe (f : FSGame) : Nat → Int → Int
  | 0, y => y
  | fuel + 1, y =>
    if isCollision f f.x y f.theta then y else hardDropProbe f fuel (y + 1)

/-- Function `updateHardDropY` of `fs.c`: `hardDropY` becomes one above the first
colliding row at the current `x`/`theta`, probing downward from `y`. -/
def updateHardDropY (f : FSGame) : FSGame :=
  { f with hardDropY := hardDropProbe f (f.fieldHeight + 8) f.y - 1 }

/-- Function `newPiece` of `fs.c`: reset the active piece's kinematic state, pop the
head of the preview queue as the new active piece, draw a fresh piece from
the randomizer into the back of the queue, and re-enable hold. -/
def newPiece (f : FSGame) : FSGame :=
  { f with
    x := (f.fieldWidth : Int) / 2 - 1
    y := 0
    actualY := 0
    theta := 0
    lockTimer := 0
    finessePieceRotation := 0
    finessePieceDirection := 0
    piece := f.nextPiece.headD Piece.NONE
    nextPiece := f.nextPiece.tail ++ [f.randStream f.randIndex]
    randIndex := f.randIndex + 1
    holdAvailable := true }

/-- Kick-table index selection in `doRotate` of `fs.c`. The C `default`
branch calls `abort()`; it is modelled as `Option.none` and is unreachable
for the valid rotation inputs `{1, -1, 2}`. -/
def kickTableNo (f : FSGame) (direction : Int) : Option Int :=
  if direction = 1 then Option.some (f.rotationSystem.kicksR f.piece)
  else if direction = -1 then Option.some (f.rotationSystem.kicksL f.piece)
  else if direction = 2 then Option.some (f.rotationSystem.kicksH f.piece)
  else Option.none

/-- The kick search loop of `doRotate` in `fs.c`: return the first kick
offset whose target position does not collide at the new rotation. -/
def findKick (f : FSGame) (newDir : Nat) : List (Int × Int) → Option (Int × Int)
  | [] => Option.none
  | k :: ks =>
    if isCollision f (f.x + k.1) (f.y + k.2) newDir then findKick f newDir ks
    else Option.some (f.x + k.1, f.y + k.2)

/-- The kick position `doRotate` of `fs.c` will commit, if any: select the
kick table (negative index picks the empty table), then search its row for
the current `theta`. `Option.none` covers both an exhausted table and the
(unreachable) `abort()` on an invalid direction. -/
def doRotateKick (f : FSGame) (direction : Int) : Option (Int × Int) :=
  let newDir := ((f.theta : Int) + 4 + direction).toNat % 4
  match kickTableNo f direction with
  | Option.none => Option.none
  | Option.some tableNo =>
    let table :=
      if 0 ≤ tableNo then f.rotationSystem.kickTables tableNo.toNat
      else emptyWallkickTable
    findKick f newDir (table f.theta)

/-- Function `doRotate` of `fs.c`: try to rotate the current piece in `direction`
(`1` = CW, `-1` = CCW, `2` = halfturn) using the active rotation system's
kick table, committing the first kick position that does not collide.
Returns the updated game and whether the rotation succeeded. -/
def doRotate (f : FSGame) (direction : Int) : FSGame × Bool :=
  let newDir := ((f.theta : Int) + 4 + direction).toNat % 4
  match doRotateKick f direction with
  | Option.none => (f, false)
  | Option.some ky => ({ f with x := ky.1, y := ky.2, theta := newDir }, true)

/-- C cast of a value to an integer type truncates toward zero; `(FSInt)
f->actualY` in `doPieceGravity` is this operation on the `ℚ` model. -/
def ratTrunc (q : ℚ) : Int := if 0 ≤ q then ⌊q⌋ else ⌈q⌉

/-- Function `doPieceGravity` of `fs.c`: add `msPerTick * gravity + inputGravity` to
`actualY`; if the result reaches `hardDropY`, clamp to it (landing);
otherwise step `y` to the truncated accumulator, resetting the lock timer on
downward integer movement for the STEP and MOVE lock styles. -/
def doPieceGravity (f : FSGame) (gravity : Int) : FSGame :=
  let aY := f.actualY + (f.msPerTick : ℚ) * f.gravity + (gravity : ℚ)
  if (f.hardDropY : ℚ) ≤ aY then
    { f with
      actualY := (f.hardDropY : ℚ)
      y := f.hardDropY
      state := if f.state = GameState.FALLING then GameState.LANDED else f.state }
  else
    { f with
      actualY := aY
      y := ratTrunc aY
      lockTimer :=
        if (f.lockStyle = LockStyle.STEP ∨ f.lockStyle = LockStyle.MOVE) ∧
            f.y < ratTrunc aY then 0
        else f.lockTimer
      state := GameState.FALLING }

/-- Row-fullness test of `clearLines` in `fs.c`: a row is full (and will be
cleared) iff none of its `fieldWidth` cells is 0. -/
def rowFull (b : Nat → Nat → Nat) (W y : Nat) : Bool :=
  decide (∀ x, x < W → b y x ≠ 0)

/-- First pass of `clearLines` in `fs.c`, walking rows top to bottom: shift
the accumulated bitmask left once per row, OR-ing in a 1 first when the row
is full, and count full rows. `FSBits` is declared in the missing
`fsTypes.h`; it is modelled as an unbounded natural, per the spec's
`fieldHeight ≤ 32` restriction on this algorithm. Arguments: field, width,
current row, mask, count, rows remaining. -/
def scanRowsAux (b : Nat → Nat → Nat) (W : Nat) : Nat → Nat → Nat → Nat → Nat × Nat
  | _, m, c, 0 => (m, c)
  | y, m, c, k + 1 =>
    if rowFull b W y then scanRowsAux b W (y + 1) ((m ||| 1) <<< 1) (c + 1) k
    else scanRowsAux b W (y + 1) (m <<< 1) c k

/-- Second pass of `clearLines` in `fs.c`, walking rows bottom-up with a
destination cursor: rows whose mask bit is set are skipped, other rows are
copied (`memcpy` of `fieldWidth` cells) to the destination cursor, which
then moves up. Arguments: width, field, mask, destination row, source rows
remaining (the next source row is one less than this count). -/
def copyRowsAux (W : Nat) : (Nat → Nat → Nat) → Nat → Nat → Nat → (Nat → Nat → Nat)
  | b, _, _, 0 => b
  | b, mask, dst, s + 1 =>
    if mask &&& 1 ≠ 0 then copyRowsAux W b (mask >>> 1) dst s
    else
      let b' := if s = dst then b
        else fun r c => if r = dst ∧ c < W then b s c else b r c
      copyRowsAux W b' (mask >>> 1) (dst - 1) s

/-- Third pass of `clearLines` in `fs.c`: `memset` the top `filledLineCount`
rows (rows `0 .. cnt-1`) to zero across `fieldWidth` cells. -/
def zeroTopRows (W : Nat) : (Nat → Nat → Nat) → Nat → (Nat → Nat → Nat)
  | b, 0 => b
  | b, i + 1 => zeroTopRows W (fun r c => if r = i ∧ c < W then 0 else b r c) i

/-- Function `clearLines` of `fs.c`: find all full rows (first pass), compact the
surviving rows downward (second pass), zero the vacated top rows, and return
the number of cleared rows together with the new field. -/
def clearLines (W H : Nat) (b : Nat → Nat → Nat) : Nat × (Nat → Nat → Nat) :=
  let mc := scanRowsAux b W 0 0 0 H
  let mask := mc.1 >>> 1
  let b2 := copyRowsAux W b mask (H - 1) H
  (mc.2, zeroTopRows W b2 mc.2)

/-- Sequential cell writes of `lockPiece` in `fs.c`: store `v` at each block
position. Writes at negative coordinates are dropped (in C they would be
out-of-bounds accesses; locked pieces are in bounds in reachable states). -/
def writeBlocks (v : Nat) : (Nat → Nat → Nat) → List (Int × Int) → (Nat → Nat → Nat)
  | b, [] => b
  | b, p :: ps =>
    writeBlocks v
      (fun r c => if 0 ≤ p.1 ∧ 0 ≤ p.2 ∧ r = p.2.toNat ∧ c = p.1.toNat then v else b r c)
      ps

/-- Table `fLook` of `lockPiece` in `fs.c`: minimum rotational presses to reach
each rotation state, excluding half-turns. -/
def fLook : Nat → Nat
  | 0 => 0
  | 1 => 1
  | 2 => 2
  | _ => 1

/-- Function `lockPiece` of `fs.c`: write the active piece's cells into the field
with its colour tag, count the placement, and add this piece's wasted
directional and rotational presses to `finesse`. -/
def lockPiece (f : FSGame) : FSGame :=
  let blocks := fsPieceToBlocks f f.piece f.x f.y f.theta
  let wastedDirection :=
    if 2 < f.finessePieceDirection then f.finessePieceDirection - 2 else 0
  let wastedRotation :=
    if f.piece = Piece.O then
      if fLook f.theta < f.finessePieceRotation then
        f.finessePieceRotation - fLook f.theta
      else 0
    else f.finessePieceRotation
  { f with
    blocksPlaced := f.blocksPlaced + 1
    b := writeBlocks (pieceColors f.piece) f.b blocks
    finesse := f.finesse + wastedDirection + wastedRotation }

/-- The leftward movement loop of `fsGameTick` in `fs.c`: iterate the
remaining distance; each iteration moves one cell left when the adjacent
cell is collision-free, and otherwise leaves `x` (and the loop keeps
counting down). `moved` records whether any step succeeded. -/
def moveLeftLoop (f : FSGame) : Nat → Int → Bool → Int × Bool
  | 0, x, moved => (x, moved)
  | k + 1, x, moved =>
    if isCollision f (x - 1) f.y f.theta then moveLeftLoop f k x moved
    else moveLeftLoop f k (x - 1) true

/-- The rightward movement loop of `fsGameTick` in `fs.c`, mirror of
`moveLeftLoop`. -/
def moveRightLoop (f : FSGame) : Nat → Int → Bool → Int × Bool
  | 0, x, moved => (x, moved)
  | k + 1, x, moved =>
    if isCollision f (x + 1) f.y f.theta then moveRightLoop f k x moved
    else moveRightLoop f k (x + 1) true

/-- The horizontal-movement sub-step of `fsGameTick` in `fs.c`: the two
`for` loops over `distance = input.movement` (only the loop matching the
sign runs). Returns the final `x` and whether any step succeeded. -/
def moveStep (f : FSGame) (movement : Int) : Int × Bool :=
  if movement < 0 then moveLeftLoop f (-movement).toNat f.x false
  else moveRightLoop f movement.toNat f.x false

/-- The hold handling at the top of the `FALLING`/`LANDED` case of
`fsGameTick` in `fs.c`. -/
def holdStep (f : FSGame) (i : FSInput) : FSGame :=
  if i.hold ∧ f.holdAvailable then
    let f1 := { f with holdAvailable := false }
    if f1.holdPiece = Piece.NONE then
      { (newPiece { f1 with holdPiece := f1.piece }) with holdAvailable := false }
    else
      updateHardDropY
        { f1 with
          x := (f1.fieldWidth : Int) / 2 - 1
          y := 0
          actualY := 0
          theta := 0
          lockTimer := 0
          piece := f1.holdPiece
          holdPiece := f1.piece }
  else f

/-- The shared `FALLING`/`LANDED` body of `fsGameTick` in `fs.c` up to (not
including) the gravity application: hold, finesse counters, rotation
attempt, horizontal movement, and the `moved` bookkeeping (refresh
`hardDropY`; reset the lock timer under the MOVE lock style). -/
def preGravity (f : FSGame) (i : FSInput) : FSGame :=
  let f1 := holdStep f i
  let f2 := { f1 with
    finessePieceDirection :=
      if i.finesseDirection then f1.finessePieceDirection + 1
      else f1.finessePieceDirection
    finessePieceRotation :=
      if i.finesseRotation then f1.finessePieceRotation + 1
      else f1.finessePieceRotation }
  let rot := if i.rotation ≠ 0 then doRotate f2 i.rotation else (f2, false)
  let mv := moveStep rot.1 i.movement
  let f4 := { rot.1 with x := mv.1 }
  let moved := rot.2 || mv.2
  if moved then
    let f5 := updateHardDropY f4
    if f5.lockStyle = LockStyle.MOVE then { f5 with lockTimer := 0 } else f5
  else f4

/-- The full `FALLING`/`LANDED` case of `fsGameTick` in `fs.c`: the
pre-gravity body, then gravity, then the transition to `LINES` on a
hard-drop input or an expired lock timer, then the lock-timer increment
while `LANDED`. -/
def stepFalling (f : FSGame) (i : FSInput) : FSGame :=
  let f6 := doPieceGravity (preGravity f i) i.gravity
  let f7 :=
    if i.hardDrop ∨ TICKS f6 f6.lockDelay < f6.lockTimer then
      { f6 with state := GameState.LINES }
    else f6
  if f7.state = GameState.LANDED then { f7 with lockTimer := f7.lockTimer + 1 }
  else f7

/-- The `NEW_PIECE` case of `fsGameTick` in `fs.c`: spawn; on a spawn
collision go to `GAMEOVER` (whose dispatch case is a no-op), otherwise
refresh `hardDropY` and start `FALLING`. -/
def stepNewPiece (f : FSGame) : FSGame :=
  let f1 := newPiece f
  if isCollision f1 f1.x f1.y f1.theta then { f1 with state := GameState.GAMEOVER }
  else { (updateHardDropY f1) with state := GameState.FALLING }

/-- The `ARE` case of `fsGameTick` in `fs.c`: `if (areTimer++ > TICKS(areDelay))`
resets the timer and re-enters dispatch as `NEW_PIECE` in the same tick;
otherwise the post-increment is kept. -/
def stepAre (f : FSGame) : FSGame :=
  if TICKS f f.areDelay < f.areTimer then
    stepNewPiece { f with areTimer := 0, state := GameState.NEW_PIECE }
  else { f with areTimer := f.areTimer + 1 }

/-- The `LINES` case of `fsGameTick` in `fs.c`: lock the piece, invalidate
it, clear lines, then re-enter dispatch in the same tick as `ARE` (goal not
yet reached) or `GAMEOVER`. -/
def stepLines (f : FSGame) : FSGame :=
  let f1 := { (lockPiece f) with piece := Piece.NONE }
  let cl := clearLines f1.fieldWidth f1.fieldHeight f1.b
  let f2 := { f1 with b := cl.2, linesCleared := f1.linesCleared + cl.1 }
  if f2.linesCleared < f2.goal then stepAre { f2 with state := GameState.ARE }
  else { f2 with state := GameState.GAMEOVER }

/-- Function `fsGameTick` of `fs.c`: record the input, dispatch on the current state
(the `goto beginTick` re-entries are the direct calls inside `stepAre`,
`stepNewPiece` and `stepLines`; `READY`, `GO`, `GAMEOVER`, `QUIT` and the
`default` case do nothing), then count the tick. -/
def fsGameTick (f0 : FSGame) (i : FSInput) : FSGame :=
  let f := { f0 with lastInput := i }
  let f' :=
    match f.state with
    | GameState.ARE => stepAre f
    | GameState.NEW_PIECE => stepNewPiece f
    | GameState.FALLING => stepFalling f i
    | GameState.LANDED => stepFalling f i
    | GameState.LINES => stepLines f
    | _ => f
  { f' with totalTicks := f'.totalTicks + 1 }

/-- The `struct FSOptions` of `engine/option.h`. `verbosity` holds a log level;
`fsLog.c` fixes the level order as debug = 0, info = 1, warning = 2,
error = 3, fatal = 4. `fsParseOptString` starts from the `memset`-zeroed
struct. -/
structure FSOptions where
  verbosity : Nat
  no_ini : Bool
  replay : Option String
deriving DecidableEq, Repr

/-- Constant `FS_LOG_LEVEL_INFO`, per the level order in `fsLog.c`. -/
def FS_LOG_LEVEL_INFO : Nat := 1

/-- Constant `FS_LOG_LEVEL_DEBUG`, per the level order in `fsLog.c`. -/
def FS_LOG_LEVEL_DEBUG : Nat := 0

/-- Outcome of `fsParseOptString` of `engine/option.c`: either the filled
options struct, or a process exit with the given code (`exit(0)` for help,
`exit(1)` for a rejected argument). -/
inductive ParseResult
  | ok (o : FSOptions)
  | exited (code : Nat)
deriving DecidableEq, Repr

/-- The argument loop of `fsParseOptString` of `engine/option.c`. `strcmp`
equality is string equality; `!strncmp(p, opt, n)` is equality of the first
`n` characters, i.e. of `(String.data p).take n` with `(String.data opt).take n`
for the literal prefixes used here. Note the replay branch tests
`!strncmp("-", opt, 1) && !strncmp("--", opt, 2)`, which holds exactly for
arguments that start with `--`. -/
def parseArgsLoop (o : FSOptions) : List String → ParseResult
  | [] => ParseResult.ok o
  | opt :: rest =>
    if opt = "-v" then
      parseArgsLoop { o with verbosity := FS_LOG_LEVEL_INFO } rest
    else if opt = "-vv" then
      parseArgsLoop { o with verbosity := FS_LOG_LEVEL_DEBUG } rest
    else if opt = "-i" ∨ opt = "--no-ini" then
      parseArgsLoop { o with no_ini := true } rest
    else if opt = "-h" ∨ opt = "--help" then
      ParseResult.exited 0
    else if opt.data.take 1 = ['-'] ∧ opt.data.take 2 = ['-', '-'] then
      parseArgsLoop { o with replay := Option.some opt } rest
    else
      ParseResult.exited 1

/-- Function `fsParseOptString` of `engine/option.c`: zero the options struct and
scan `argv[1..]`. -/
def fsParseOptString (args : List String) : ParseResult :=
  parseArgsLoop { verbosity := 0, no_ini := false, replay := Option.none } args

/-! ### Characterisation of `clearLines` -/

/-- The indices of the rows that survive a `clearLines` call, top to
bottom: the rows that are not fully non-empty. -/
def survivors (W H : Nat) (b : Nat → Nat → Nat) : List Nat :=
  (List.range H).filter (fun y => !(rowFull b W y))

/-- Value of the first-pass bitmask for rows `y .. y+k-1`: the flag of row
`y` is the most significant of the `k` bits. -/
def maskOff (full : Nat → Bool) : Nat → Nat → Nat
  | _, 0 => 0
  | y, k + 1 => (if full y then 2 ^ k else 0) + maskOff full (y + 1) k

/-- Number of full rows among rows `y .. y+k-1`. -/
def cntOff (full : Nat → Bool) : Nat → Nat → Nat
  | _, 0 => 0
  | y, k + 1 => (if full y then 1 else 0) + cntOff full (y + 1) k

/-- Indices of non-full rows among rows `y .. y+k-1`, in order. -/
def survOff (full : Nat → Bool) : Nat → Nat → List Nat
  | _, 0 => []
  | y, k + 1 =>
    if full y then survOff full (y + 1) k else y :: survOff full (y + 1) k

theorem two_mul_lor_one (m : Nat) : 2 * m ||| 1 = 2 * m + 1 := by
  apply Nat.eq_of_testBit_eq
  intro i
  cases i with
  | zero =>
    simp [Nat.testBit_or]
    omega
  | succ j =>
    have h3 : (2 * m + 1) / 2 = m := by omega
    simp [Nat.testBit_succ, Nat.or_div_two, h3]

theorem scanRowsAux_eq (b : Nat → Nat → Nat) (W : Nat) :
    ∀ (k y m c : Nat),
      scanRowsAux b W y (2 * m) c k =
        (2 * (m * 2 ^ k + maskOff (rowFull b W) y k),
          c + cntOff (rowFull b W) y k) := by
  intro k
  induction k with
  | zero => intro y m c; simp [scanRowsAux, maskOff, cntOff]
  | succ k ih =>
    intro y m c
    simp only [scanRowsAux]
    by_cases h : rowFull b W y
    · rw [if_pos h]
      have e1 : (2 * m ||| 1) <<< 1 = 2 * (2 * m + 1) := by
        rw [two_mul_lor_one, Nat.shiftLeft_eq]
        ring
      rw [e1, ih]
      simp only [maskOff, cntOff, if_pos h, Prod.mk.injEq]
      constructor
      · ring
      · omega
    · rw [if_neg h]
      have e1 : (2 * m) <<< 1 = 2 * (2 * m) := by
        rw [Nat.shiftLeft_eq]
        ring
      rw [e1, ih]
      simp only [maskOff, cntOff, if_neg h, Prod.mk.injEq]
      constructor
      · ring
      · omega

theorem maskOff_succ (full : Nat → Bool) :
    ∀ (k y : Nat),
      maskOff full y (k + 1) =
        2 * maskOff full y k + (if full (y + k) then 1 else 0) := by
  intro k
  induction k with
  | zero => intro y; simp [maskOff]
  | succ k ih =>
    intro y
    have hyk : y + 1 + k = y + (k + 1) := by ring
    calc maskOff full y (k + 2)
        = (if full y then 2 ^ (k + 1) else 0) + maskOff full (y + 1) (k + 1) := rfl
      _ = (if full y then 2 ^ (k + 1) else 0) +
            (2 * maskOff full (y + 1) k + (if full (y + 1 + k) then 1 else 0)) := by
            rw [ih]
      _ = 2 * maskOff full y (k + 1) + (if full (y + (k + 1)) then 1 else 0) := by
            show _ = 2 * ((if full y then 2 ^ k else 0) + maskOff full (y + 1) k) + _
            rw [hyk]
            split_ifs <;> ring

theorem survOff_length (full : Nat → Bool) :
    ∀ (k y : Nat), (survOff full y k).length + cntOff full y k = k := by
  intro k
  induction k with
  | zero => intro y; simp [survOff, cntOff]
  | succ k ih =>
    intro y
    have := ih (y + 1)
    by_cases h : full y <;> (simp [survOff, cntOff, h]; omega)

theorem survOff_eq_filter (full : Nat → Bool) :
    ∀ (k y : Nat),
      survOff full y k = (List.range' y k).filter (fun t => !(full t)) := by
  intro k
  induction k with
  | zero => intro y; simp [survOff]
  | succ k ih =>
    intro y
    rw [List.range'_succ]
    by_cases h : full y <;> simp [survOff, h, List.filter_cons, ih]

theorem cntOff_eq_filter (full : Nat → Bool) :
    ∀ (k y : Nat),
      cntOff full y k = ((List.range' y k).filter full).length := by
  intro k
  induction k with
  | zero => intro y; simp [cntOff]
  | succ k ih =>
    intro y
    rw [List.range'_succ]
    by_cases h : full y
    · simp [cntOff, h, List.filter_cons, ih]
      omega
    · simp [cntOff, h, List.filter_cons, ih]

theorem survOff_succ (full : Nat → Bool) :
    ∀ (k y : Nat),
      survOff full y (k + 1) =
        survOff full y k ++ (if full (y + k) then [] else [y + k]) := by
  intro k y
  rw [survOff_eq_filter, survOff_eq_filter, List.range'_1_concat,
    List.filter_append]
  by_cases h : full (y + k) <;> simp [h]

theorem zeroTopRows_eq (W : Nat) :
    ∀ (cnt : Nat) (b : Nat → Nat → Nat) (r c : Nat),
      zeroTopRows W b cnt r c = if r < cnt ∧ c < W then 0 else b r c := by
  intro cnt
  induction cnt with
  | zero => intro b r c; simp [zeroTopRows]
  | succ n ih =>
    intro b r c
    have step : zeroTopRows W b (n + 1) r c
        = zeroTopRows W (fun r c => if r = n ∧ c < W then 0 else b r c) n r c := rfl
    rw [step, ih]
    by_cases hc : c < W
    · by_cases h1 : r < n
      · have e1 : r < n + 1 := by omega
        simp [h1, hc, e1]
      · by_cases h2 : r = n
        · have e1 : r < n + 1 := by omega
          simp [h1, h2, hc, e1]
        · have e1 : ¬ (r < n + 1) := by omega
          simp [h1, h2, hc, e1]
    · simp [hc]

theorem copyRowsAux_spec (W : Nat) (full : Nat → Bool) (b₀ : Nat → Nat → Nat) :
    ∀ (k : Nat) (b : Nat → Nat → Nat) (dst : Nat),
      k ≤ dst + 1 →
      (∀ r, r < k → ∀ c, c < W → b r c = b₀ r c) →
      ∀ r c,
        copyRowsAux W b (maskOff full 0 k) dst k r c =
          if c < W ∧ r ≤ dst ∧ dst < r + (survOff full 0 k).length then
            b₀ ((survOff full 0 k).getD
                (r + (survOff full 0 k).length - dst - 1) 0) c
          else b r c := by
  intro k
  induction k with
  | zero =>
    intro b dst hkd hagree r c
    have hne : ¬ (c < W ∧ r ≤ dst ∧ dst < r + (survOff full 0 0).length) := by
      simp only [survOff, List.length_nil, Nat.add_zero]
      omega
    simp [copyRowsAux, maskOff, hne]
  | succ k ih =>
    intro b dst hkd hagree r c
    have hmask := maskOff_succ full k 0
    rw [Nat.zero_add] at hmask
    have hsurv := survOff_succ full k 0
    rw [Nat.zero_add] at hsurv
    by_cases hfk : full k
    · -- row k is full: the second pass skips it
      have hm1 : maskOff full 0 (k + 1) &&& 1 ≠ 0 := by
        rw [Nat.and_one_is_mod, hmask, if_pos hfk]
        omega
      have hdiv : maskOff full 0 (k + 1) >>> 1 = maskOff full 0 k := by
        rw [Nat.shiftRight_eq_div_pow, hmask, if_pos hfk]
        omega
      have step : copyRowsAux W b (maskOff full 0 (k + 1)) dst (k + 1) r c
          = copyRowsAux W b (maskOff full 0 (k + 1) >>> 1) dst k r c := by
        simp only [copyRowsAux, if_pos hm1]
      rw [step, hdiv,
        ih b dst (by omega) (fun r hr c hc => hagree r (by omega) c hc) r c,
        hsurv, if_pos hfk, List.append_nil]
    · -- row k survives: it is copied to the destination cursor
      have hm0 : ¬ (maskOff full 0 (k + 1) &&& 1 ≠ 0) := by
        rw [Nat.and_one_is_mod, hmask, if_neg hfk]
        omega
      have hdiv : maskOff full 0 (k + 1) >>> 1 = maskOff full 0 k := by
        rw [Nat.shiftRight_eq_div_pow, hmask, if_neg hfk]
        omega
      have hb' :
          (if k = dst then b
            else fun r c => if r = dst ∧ c < W then b k c else b r c)
          = fun r c => if r = dst ∧ c < W then b₀ k c else b r c := by
        funext u v
        by_cases hkdst : k = dst
        · rw [if_pos hkdst]
          by_cases huv : u = dst ∧ v < W
          · rw [if_pos huv]
            rw [← hkdst] at huv
            rw [huv.1, hagree k (by omega) v huv.2]
          · rw [if_neg huv]
        · rw [if_neg hkdst]
          by_cases huv : u = dst ∧ v < W
          · rw [if_pos huv, if_pos huv, hagree k (by omega) v huv.2]
          · rw [if_neg huv, if_neg huv]
      have step : copyRowsAux W b (maskOff full 0 (k + 1)) dst (k + 1) r c
          = copyRowsAux W
              (fun r c => if r = dst ∧ c < W then b₀ k c else b r c)
              (maskOff full 0 (k + 1) >>> 1) (dst - 1) k r c := by
        simp only [copyRowsAux, if_neg hm0, hb']
      have hagree' : ∀ u, u < k → ∀ v, v < W →
          (fun r c => if r = dst ∧ c < W then b₀ k c else b r c) u v = b₀ u v := by
        intro u hu v hv
        show (if u = dst ∧ v < W then b₀ k v else b u v) = b₀ u v
        have hne2 : ¬ (u = dst ∧ v < W) := by
          intro hcontra
          omega
        rw [if_neg hne2]
        exact hagree u (by omega) v hv
      rw [step, hdiv, ih _ (dst - 1) (by omega) hagree' r c, hsurv, if_neg hfk]
      have hlen := survOff_length full k 0
      set s := survOff full 0 k with hs
      set L := s.length with hL
      by_cases hc : c < W
      · by_cases hr1 : r = dst
        · -- the destination row receives row k
          have hcond2 : c < W ∧ r ≤ dst ∧ dst < r + (s ++ [k]).length := by
            simp
            omega
          rw [if_pos hcond2]
          have hidx : r + (s ++ [k]).length - dst - 1 = L := by
            simp
            omega
          rw [hidx]
          have hgetd : (s ++ [k]).getD L 0 = k := by
            rw [List.getD_append_right s [k] 0 L (by omega)]
            simp
          rw [hgetd]
          by_cases hdz : dst = 0
          · -- here k = 0 as well, and the inner pass is empty
            have hk0 : k = 0 := by omega
            have hLz : L = 0 := by
              rw [hL, hs, hk0]
              simp [survOff]
            have hcond1 : ¬ (c < W ∧ r ≤ dst - 1 ∧ dst - 1 < r + L) := by
              omega
            rw [if_neg hcond1, if_pos (by exact ⟨hr1, hc⟩ : r = dst ∧ c < W)]
          · have hcond1 : ¬ (c < W ∧ r ≤ dst - 1 ∧ dst - 1 < r + L) := by
              omega
            rw [if_neg hcond1, if_pos (by exact ⟨hr1, hc⟩ : r = dst ∧ c < W)]
        · by_cases hr2 : r < dst
          · by_cases hin : dst ≤ r + L
            · have hcond1 : c < W ∧ r ≤ dst - 1 ∧ dst - 1 < r + L := by
                refine ⟨hc, by omega, by omega⟩
              have hcond2 : c < W ∧ r ≤ dst ∧ dst < r + (s ++ [k]).length := by
                simp
                exact ⟨hc, by omega, by omega⟩
              rw [if_pos hcond1, if_pos hcond2]
              have hidx1 : r + L - (dst - 1) - 1 = r + L - dst := by omega
              have hidx2 : r + (s ++ [k]).length - dst - 1 = r + L - dst := by
                simp
                omega
              rw [hidx1, hidx2]
              have hbound : r + L - dst < L := by omega
              rw [List.getD_append s [k] 0 _ hbound]
            · have hcond1 : ¬ (c < W ∧ r ≤ dst - 1 ∧ dst - 1 < r + L) := by
                omega
              have hcond2 : ¬ (c < W ∧ r ≤ dst ∧ dst < r + (s ++ [k]).length) := by
                simp
                intro _ _
                omega
              rw [if_neg hcond1, if_neg hcond2,
                if_neg (by intro hcontra; omega : ¬ (r = dst ∧ c < W))]
          · -- r > dst: untouched
            have hcond1 : ¬ (c < W ∧ r ≤ dst - 1 ∧ dst - 1 < r + L) := by omega
            have hcond2 : ¬ (c < W ∧ r ≤ dst ∧ dst < r + (s ++ [k]).length) := by
              intro hcontra
              omega
            rw [if_neg hcond1, if_neg hcond2,
              if_neg (by intro hcontra; omega : ¬ (r = dst ∧ c < W))]
      · have hcond1 : ¬ (c < W ∧ r ≤ dst - 1 ∧ dst - 1 < r + L) := by
          intro hcontra
          omega
        have hcond2 : ¬ (c < W ∧ r ≤ dst ∧ dst < r + (s ++ [k]).length) := by
          intro hcontra
          omega
        rw [if_neg hcond1, if_neg hcond2,
          if_neg (by intro hcontra; omega : ¬ (r = dst ∧ c < W))]

theorem clearLines_eq (W H : Nat) (b : Nat → Nat → Nat) :
    clearLines W H b =
      (cntOff (rowFull b W) 0 H,
        zeroTopRows W
          (copyRowsAux W b (maskOff (rowFull b W) 0 H) (H - 1) H)
          (cntOff (rowFull b W) 0 H)) := by
  have h2 : scanRowsAux b W 0 0 0 H
      = (2 * (0 * 2 ^ H + maskOff (rowFull b W) 0 H),
          0 + cntOff (rowFull b W) 0 H) := scanRowsAux_eq b W H 0 0 0
  simp only [Nat.zero_mul, Nat.zero_add] at h2
  have h3 : (2 * maskOff (rowFull b W) 0 H) >>> 1
      = maskOff (rowFull b W) 0 H := by
    rw [Nat.shiftRight_eq_div_pow]
    omega
  simp only [clearLines, h2, h3]

/-- C2: `clearLines` returns the number of fully non-empty rows, keeps
exactly the other rows in order (each shifted down past the removed rows
below it), zeroes the vacated top rows, and leaves no fully non-empty row. -/
theorem clearLines_spec (W H : Nat) (b : Nat → Nat → Nat)
    (hW : 0 < W) (hH : H ≤ 32) :
    (clearLines W H b).1 =
      ((List.range H).filter (fun y => rowFull b W y)).length ∧
    (∀ r, r < H → ∀ c, c < W →
      (clearLines W H b).2 r c =
        if r < (clearLines W H b).1 then 0
        else b ((survivors W H b).getD (r - (clearLines W H b).1) 0) c) ∧
    (∀ r, r < H → rowFull (clearLines W H b).2 W r = false) := by
  have hcl := clearLines_eq W H b
  have hlen := survOff_length (rowFull b W) H 0
  have hcnt : cntOff (rowFull b W) 0 H
      = ((List.range H).filter (fun y => rowFull b W y)).length := by
    rw [cntOff_eq_filter, List.range_eq_range']
  have hsurv : survOff (rowFull b W) 0 H = survivors W H b := by
    rw [survOff_eq_filter, survivors, List.range_eq_range']
  have hfst : (clearLines W H b).1 = cntOff (rowFull b W) 0 H := by
    rw [hcl]
  have hcopy := copyRowsAux_spec W (rowFull b W) b H b (H - 1)
    (by omega) (fun r _ c _ => rfl)
  have hval : ∀ r, r < H → ∀ c, c < W →
      (clearLines W H b).2 r c =
        if r < cntOff (rowFull b W) 0 H then 0
        else b ((survOff (rowFull b W) 0 H).getD
          (r - cntOff (rowFull b W) 0 H) 0) c := by
    intro r hr c hc
    rw [hcl]
    show zeroTopRows W _ _ r c = _
    rw [zeroTopRows_eq]
    by_cases h1 : r < cntOff (rowFull b W) 0 H
    · rw [if_pos ⟨h1, hc⟩, if_pos h1]
    · rw [if_neg (fun hx => h1 hx.1), if_neg h1, hcopy r c]
      have hcond : c < W ∧ r ≤ H - 1 ∧
          H - 1 < r + (survOff (rowFull b W) 0 H).length := by
        refine ⟨hc, by omega, by omega⟩
      rw [if_pos hcond]
      have hidx : r + (survOff (rowFull b W) 0 H).length - (H - 1) - 1
          = r - cntOff (rowFull b W) 0 H := by omega
      rw [hidx]
  refine ⟨by rw [hfst, hcnt], ?_, ?_⟩
  · intro r hr c hc
    rw [hval r hr c hc, hfst, hsurv]
  · intro r hr
    simp only [rowFull, decide_eq_false_iff_not]
    intro hall
    by_cases h1 : r < cntOff (rowFull b W) 0 H
    · exact hall 0 hW (by rw [hval r hr 0 hW, if_pos h1])
    · have hsl : (survivors W H b).length = (survOff (rowFull b W) 0 H).length := by
        rw [hsurv]
      have hbound : r - cntOff (rowFull b W) 0 H < (survivors W H b).length := by
        omega
      have hmem : (survivors W H b).getD (r - cntOff (rowFull b W) 0 H) 0
          ∈ survivors W H b := by
        rw [List.getD_eq_getElem _ _ hbound]
        exact List.getElem_mem hbound
      have hnf := (List.mem_filter.1 hmem).2
      rw [Bool.not_eq_true'] at hnf
      simp only [rowFull, decide_eq_false_iff_not] at hnf
      push_neg at hnf
      obtain ⟨x, hxW, hx0⟩ := hnf
      exact hall x hxW (by rw [hval r hr x hxW, if_neg h1, hsurv, hx0])

/-! ### C8: `isOccupied` -/

/-- C8: `isOccupied` holds exactly when the coordinate is outside the field
bounds or the cell value is strictly greater than 1; in particular every
out-of-field cell counts as occupied. -/
theorem isOccupied_iff (f : FSGame) (x y : Int) :
    isOccupied f x y = true ↔
      (x < 0 ∨ (f.fieldWidth : Int) ≤ x ∨ y < 0 ∨ (f.fieldHeight : Int) ≤ y ∨
        1 < f.b y.toNat x.toNat) := by
  unfold isOccupied
  by_cases h : x < 0 ∨ (f.fieldWidth : Int) ≤ x ∨ y < 0 ∨ (f.fieldHeight : Int) ≤ y
  · rw [if_pos h]
    simp only [true_iff]
    tauto
  · rw [if_neg h]
    simp only [decide_eq_true_eq]
    push_neg at h
    constructor
    · intro hb
      tauto
    · intro hb
      rcases hb with h1 | h1 | h1 | h1 | h1
      · omega
      · exact absurd h1 (by omega)
      · omega
      · exact absurd h1 (by omega)
      · exact h1

/-! ### C10: failed rotations have no effect -/

/-- C10: when `doRotate` fails (no kick-table entry fits), the game state is
returned exactly as it was: `x`, `y`, `theta` and the field are untouched. -/
theorem doRotate_fail_id (f : FSGame) (d : Int)
    (_hd : d = 1 ∨ d = -1 ∨ d = 2) (h : (doRotate f d).2 = false) :
    (doRotate f d).1 = f := by
  unfold doRotate at h ⊢
  rcases hfk : doRotateKick f d with _ | ky
  · rfl
  · rw [hfk] at h
    simp at h

/-! ### C7: horizontal movement walks to the first collision -/

/-- The horizontal walk as the spec and claim describe it: step one cell at
a time in direction `d`, each step gated by the next cell being
collision-free, stopping at the first collision, for at most the given
number of steps. -/
def specWalk (free : Int → Bool) (d : Int) : Nat → Int → Int
  | 0, x => x
  | k + 1, x => if free (x + d) then specWalk free d k (x + d) else x

/-- The claim's description of the horizontal-movement sub-step: walk from
the current `x` in the direction of the sign of `movement`, for at most
`|movement|` steps, stopping at the first colliding cell. -/
def specMove (f : FSGame) (movement : Int) : Int :=
  if movement < 0 then
    specWalk (fun t => !(isCollision f t f.y f.theta)) (-1) (-movement).toNat f.x
  else
    specWalk (fun t => !(isCollision f t f.y f.theta)) 1 movement.toNat f.x

theorem moveLeftLoop_stuck (f : FSGame) (x : Int)
    (h : isCollision f (x - 1) f.y f.theta = true) :
    ∀ (k : Nat) (m : Bool), (moveLeftLoop f k x m).1 = x := by
  intro k
  induction k with
  | zero => intro m; rfl
  | succ k ih =>
    intro m
    show (if isCollision f (x - 1) f.y f.theta = true
        then moveLeftLoop f k x m else moveLeftLoop f k (x - 1) true).1 = x
    rw [if_pos h]
    exact ih m

theorem moveRightLoop_stuck (f : FSGame) (x : Int)
    (h : isCollision f (x + 1) f.y f.theta = true) :
    ∀ (k : Nat) (m : Bool), (moveRightLoop f k x m).1 = x := by
  intro k
  induction k with
  | zero => intro m; rfl
  | succ k ih =>
    intro m
    show (if isCollision f (x + 1) f.y f.theta = true
        then moveRightLoop f k x m else moveRightLoop f k (x + 1) true).1 = x
    rw [if_pos h]
    exact ih m

theorem moveLeftLoop_eq_specWalk (f : FSGame) :
    ∀ (k : Nat) (x : Int) (m : Bool),
      (moveLeftLoop f k x m).1 =
        specWalk (fun t => !(isCollision f t f.y f.theta)) (-1) k x := by
  intro k
  induction k with
  | zero => intro x m; rfl
  | succ k ih =>
    intro x m
    have hx : x + (-1) = x - 1 := by ring
    show (if isCollision f (x - 1) f.y f.theta = true
        then moveLeftLoop f k x m else moveLeftLoop f k (x - 1) true).1 = _
    by_cases h : isCollision f (x - 1) f.y f.theta = true
    · rw [if_pos h, moveLeftLoop_stuck f x h k m, specWalk, hx]
      rw [if_neg (by simp [h])]
    · rw [if_neg h, ih (x - 1) true, specWalk, hx]
      rw [if_pos (by simp [Bool.not_eq_true] at h ⊢; exact h)]

theorem moveRightLoop_eq_specWalk (f : FSGame) :
    ∀ (k : Nat) (x : Int) (m : Bool),
      (moveRightLoop f k x m).1 =
        specWalk (fun t => !(isCollision f t f.y f.theta)) 1 k x := by
  intro k
  induction k with
  | zero => intro x m; rfl
  | succ k ih =>
    intro x m
    show (if isCollision f (x + 1) f.y f.theta = true
        then moveRightLoop f k x m else moveRightLoop f k (x + 1) true).1 = _
    by_cases h : isCollision f (x + 1) f.y f.theta = true
    · rw [if_pos h, moveRightLoop_stuck f x h k m, specWalk]
      rw [if_neg (by simp [h])]
    · rw [if_neg h, ih (x + 1) true, specWalk]
      rw [if_pos (by simp [Bool.not_eq_true] at h ⊢; exact h)]

/-- C7: the final `x` of the movement loops equals the position reached by
stepping one cell at a time toward the sign of `movement`, stopping at the
first collision, for at most `|movement|` steps — even though the loops keep
iterating after a collision, cells beyond it are never entered. -/
theorem moveStep_eq_specMove (f : FSGame) (movement : Int) :
    (moveStep f movement).1 = specMove f movement := by
  unfold moveStep specMove
  by_cases h : movement < 0
  · rw [if_pos h, if_pos h, moveLeftLoop_eq_specWalk]
  · rw [if_neg h, if_neg h, moveRightLoop_eq_specWalk]

/-! ### C9: CLI argument handling -/

/-- C9 (code bug): a plain filename argument is rejected with exit code 1,
while an unknown `--`-prefixed flag is silently accepted as the replay file
— the branch condition in `fsParseOptString` contradicts its own comment
`Non-option argument is a replay (take last)`. A single-dash unknown flag is
rejected. -/
theorem parse_replay_inverted :
    fsParseOptString ["game.rec"] = ParseResult.exited 1 ∧
    fsParseOptString ["--bogus"] =
      ParseResult.ok
        { verbosity := 0, no_ini := false, replay := Option.some ("--bogus") } ∧
    fsParseOptString ["-x"] = ParseResult.exited 1 := by
  refine ⟨rfl, ?_, rfl⟩
  rfl

/-! ### C3: gravity application -/

theorem ratTrunc_eq_floor (q : ℚ) (h : 0 ≤ q) : ratTrunc q = ⌊q⌋ := by
  unfold ratTrunc
  rw [if_pos h]

/-- The accumulator value after the `actualY +=` line of `doPieceGravity`:
`msPerTick * gravity + inputGravity` added to `actualY`. -/
def gravityNewY (f : FSGame) (g : Int) : ℚ :=
  f.actualY + (f.msPerTick : ℚ) * f.gravity + (g : ℚ)

theorem doPieceGravity_eq (f : FSGame) (g : Int) :
    doPieceGravity f g =
      if (f.hardDropY : ℚ) ≤ gravityNewY f g then
        { f with
          actualY := (f.hardDropY : ℚ)
          y := f.hardDropY
          state :=
            if f.state = GameState.FALLING then GameState.LANDED else f.state }
      else
        { f with
          actualY := gravityNewY f g
          y := ratTrunc (gravityNewY f g)
          lockTimer :=
            if (f.lockStyle = LockStyle.STEP ∨ f.lockStyle = LockStyle.MOVE) ∧
                f.y < ratTrunc (gravityNewY f g) then 0
            else f.lockTimer
          state := GameState.FALLING } := rfl

/-- C3: `doPieceGravity` adds `msPerTick * gravity + inputGravity` to
`actualY`; when the result reaches `hardDropY` it clamps `actualY` and `y`
to `hardDropY` and turns `FALLING` into `LANDED` (any other state is kept);
otherwise it resets `lockTimer` exactly when the lock style is STEP or MOVE
and the floor of the new accumulator is strictly below `y`, sets `y` to that
floor, and the state becomes `FALLING`. Stated for a nonnegative updated
accumulator, where the C truncating cast agrees with the floor. -/
theorem doPieceGravity_spec (f : FSGame) (g : Int)
    (h0 : 0 ≤ gravityNewY f g) :
    ((f.hardDropY : ℚ) ≤ gravityNewY f g →
      (doPieceGravity f g).actualY = (f.hardDropY : ℚ) ∧
      (doPieceGravity f g).y = f.hardDropY ∧
      (doPieceGravity f g).state =
        (if f.state = GameState.FALLING then GameState.LANDED else f.state) ∧
      (doPieceGravity f g).lockTimer = f.lockTimer) ∧
    (gravityNewY f g < (f.hardDropY : ℚ) →
      (doPieceGravity f g).actualY = gravityNewY f g ∧
      (doPieceGravity f g).y = ⌊gravityNewY f g⌋ ∧
      (doPieceGravity f g).state = GameState.FALLING ∧
      (doPieceGravity f g).lockTimer =
        (if (f.lockStyle = LockStyle.STEP ∨ f.lockStyle = LockStyle.MOVE) ∧
            f.y < ⌊gravityNewY f g⌋ then 0
          else f.lockTimer)) := by
  rw [doPieceGravity_eq]
  by_cases hc : (f.hardDropY : ℚ) ≤ gravityNewY f g
  · rw [if_pos hc]
    constructor
    · intro _
      exact ⟨rfl, rfl, rfl, rfl⟩
    · intro hlt
      exact absurd hc (not_le.2 hlt)
  · rw [if_neg hc]
    constructor
    · intro hle
      exact absurd hle hc
    · intro _
      rw [show ratTrunc (gravityNewY f g) = ⌊gravityNewY f g⌋ from
        ratTrunc_eq_floor _ h0] at *
      exact ⟨rfl, rfl, rfl, rfl⟩

/-! ### Projection lemmas for the tick sub-steps -/

@[simp] theorem updateHardDropY_actualY (g : FSGame) :
    (updateHardDropY g).actualY = g.actualY := rfl

@[simp] theorem updateHardDropY_gravity (g : FSGame) :
    (updateHardDropY g).gravity = g.gravity := rfl

@[simp] theorem updateHardDropY_msPerTick (g : FSGame) :
    (updateHardDropY g).msPerTick = g.msPerTick := rfl

@[simp] theorem updateHardDropY_linesCleared (g : FSGame) :
    (updateHardDropY g).linesCleared = g.linesCleared := rfl

@[simp] theorem updateHardDropY_goal (g : FSGame) :
    (updateHardDropY g).goal = g.goal := rfl

@[simp] theorem doRotate_fst_actualY (g : FSGame) (d : Int) :
    (doRotate g d).1.actualY = g.actualY := by
  unfold doRotate
  rcases hfk : doRotateKick g d with _ | ky <;> rfl

@[simp] theorem doRotate_fst_gravity (g : FSGame) (d : Int) :
    (doRotate g d).1.gravity = g.gravity := by
  unfold doRotate
  rcases hfk : doRotateKick g d with _ | ky <;> rfl

@[simp] theorem doRotate_fst_msPerTick (g : FSGame) (d : Int) :
    (doRotate g d).1.msPerTick = g.msPerTick := by
  unfold doRotate
  rcases hfk : doRotateKick g d with _ | ky <;> rfl

@[simp] theorem doRotate_fst_linesCleared (g : FSGame) (d : Int) :
    (doRotate g d).1.linesCleared = g.linesCleared := by
  unfold doRotate
  rcases hfk : doRotateKick g d with _ | ky <;> rfl

@[simp] theorem doRotate_fst_goal (g : FSGame) (d : Int) :
    (doRotate g d).1.goal = g.goal := by
  unfold doRotate
  rcases hfk : doRotateKick g d with _ | ky <;> rfl

theorem holdStep_actualY (f : FSGame) (i : FSInput) :
    (holdStep f i).actualY = f.actualY ∨ (holdStep f i).actualY = 0 := by
  unfold holdStep
  dsimp only
  split
  · split
    · exact Or.inr rfl
    · exact Or.inr rfl
  · exact Or.inl rfl

@[simp] theorem holdStep_gravity (f : FSGame) (i : FSInput) :
    (holdStep f i).gravity = f.gravity := by
  unfold holdStep
  dsimp only
  repeat' split
  all_goals rfl

@[simp] theorem holdStep_msPerTick (f : FSGame) (i : FSInput) :
    (holdStep f i).msPerTick = f.msPerTick := by
  unfold holdStep
  dsimp only
  repeat' split
  all_goals rfl

@[simp] theorem holdStep_linesCleared (f : FSGame) (i : FSInput) :
    (holdStep f i).linesCleared = f.linesCleared := by
  unfold holdStep
  dsimp only
  repeat' split
  all_goals rfl

@[simp] theorem holdStep_goal (f : FSGame) (i : FSInput) :
    (holdStep f i).goal = f.goal := by
  unfold holdStep
  dsimp only
  repeat' split
  all_goals rfl

theorem preGravity_actualY (f : FSGame) (i : FSInput) :
    (preGravity f i).actualY = (holdStep f i).actualY := by
  unfold preGravity
  dsimp only
  repeat' split
  all_goals simp

@[simp] theorem preGravity_gravity (f : FSGame) (i : FSInput) :
    (preGravity f i).gravity = f.gravity := by
  unfold preGravity
  dsimp only
  repeat' split
  all_goals simp

@[simp] theorem preGravity_msPerTick (f : FSGame) (i : FSInput) :
    (preGravity f i).msPerTick = f.msPerTick := by
  unfold preGravity
  dsimp only
  repeat' split
  all_goals simp

@[simp] theorem preGravity_linesCleared (f : FSGame) (i : FSInput) :
    (preGravity f i).linesCleared = f.linesCleared := by
  unfold preGravity
  dsimp only
  repeat' split
  all_goals simp

@[simp] theorem preGravity_goal (f : FSGame) (i : FSInput) :
    (preGravity f i).goal = f.goal := by
  unfold preGravity
  dsimp only
  repeat' split
  all_goals simp

@[simp] theorem doPieceGravity_linesCleared (g : FSGame) (gg : Int) :
    (doPieceGravity g gg).linesCleared = g.linesCleared := by
  rw [doPieceGravity_eq]
  split <;> rfl

@[simp] theorem doPieceGravity_goal (g : FSGame) (gg : Int) :
    (doPieceGravity g gg).goal = g.goal := by
  rw [doPieceGravity_eq]
  split <;> rfl

theorem stepFalling_y (f : FSGame) (i : FSInput) :
    (stepFalling f i).y = (doPieceGravity (preGravity f i) i.gravity).y := by
  unfold stepFalling
  dsimp only
  repeat' split
  all_goals rfl

theorem stepFalling_actualY (f : FSGame) (i : FSInput) :
    (stepFalling f i).actualY =
      (doPieceGravity (preGravity f i) i.gravity).actualY := by
  unfold stepFalling
  dsimp only
  repeat' split
  all_goals rfl

@[simp] theorem stepFalling_linesCleared (f : FSGame) (i : FSInput) :
    (stepFalling f i).linesCleared = f.linesCleared := by
  unfold stepFalling
  dsimp only
  repeat' split
  all_goals simp

@[simp] theorem stepFalling_goal (f : FSGame) (i : FSInput) :
    (stepFalling f i).goal = f.goal := by
  unfold stepFalling
  dsimp only
  repeat' split
  all_goals simp

@[simp] theorem stepNewPiece_y (g : FSGame) : (stepNewPiece g).y = 0 := by
  unfold stepNewPiece
  dsimp only
  split
  · rfl
  · rfl

@[simp] theorem stepNewPiece_actualY (g : FSGame) :
    (stepNewPiece g).actualY = 0 := by
  unfold stepNewPiece
  dsimp only
  split
  · rfl
  · rfl

@[simp] theorem stepNewPiece_linesCleared (g : FSGame) :
    (stepNewPiece g).linesCleared = g.linesCleared := by
  unfold stepNewPiece
  dsimp only
  split
  · rfl
  · rfl

@[simp] theorem stepNewPiece_goal (g : FSGame) :
    (stepNewPiece g).goal = g.goal := by
  unfold stepNewPiece
  dsimp only
  split
  · rfl
  · rfl

@[simp] theorem stepAre_linesCleared (g : FSGame) :
    (stepAre g).linesCleared = g.linesCleared := by
  unfold stepAre
  split
  · simp
  · rfl

@[simp] theorem stepAre_goal (g : FSGame) : (stepAre g).goal = g.goal := by
  unfold stepAre
  split
  · simp
  · rfl

/-! ### C4: `y = ⌊actualY⌋` after every tick that ends falling or landed -/

theorem gravity_y_floor (f : FSGame) (g : Int) (h0 : 0 ≤ gravityNewY f g) :
    (doPieceGravity f g).y = ⌊(doPieceGravity f g).actualY⌋ := by
  rw [doPieceGravity_eq]
  by_cases hc : (f.hardDropY : ℚ) ≤ gravityNewY f g
  · rw [if_pos hc]
    show f.hardDropY = ⌊(f.hardDropY : ℚ)⌋
    rw [Int.floor_intCast]
  · rw [if_neg hc]
    show ratTrunc (gravityNewY f g) = ⌊gravityNewY f g⌋
    exact ratTrunc_eq_floor _ h0

theorem stepFalling_y_floor (f : FSGame) (i : FSInput)
    (h1 : 0 ≤ f.actualY) (h2 : 0 ≤ f.gravity) (h3 : 0 ≤ i.gravity) :
    (stepFalling f i).y = ⌊(stepFalling f i).actualY⌋ := by
  rw [stepFalling_y, stepFalling_actualY]
  apply gravity_y_floor
  have hc1 : (0 : ℚ) ≤ ((preGravity f i).msPerTick : ℚ) * (preGravity f i).gravity := by
    rw [preGravity_gravity]
    exact mul_nonneg (by positivity) h2
  have hc2 : (0 : ℚ) ≤ (i.gravity : ℚ) := by exact_mod_cast h3
  have hc0 : (0 : ℚ) ≤ (preGravity f i).actualY := by
    rw [preGravity_actualY]
    rcases holdStep_actualY f i with ha | ha <;> rw [ha]
    exact h1
  unfold gravityNewY
  have := add_nonneg (add_nonneg hc0 hc1) hc2
  exact this

theorem stepAre_y_floor (g : FSGame) (hs : g.state = GameState.ARE)
    (hFL : (stepAre g).state = GameState.FALLING ∨
      (stepAre g).state = GameState.LANDED) :
    (stepAre g).y = ⌊(stepAre g).actualY⌋ := by
  unfold stepAre at hFL ⊢
  split at hFL
  · rw [if_pos (by assumption : TICKS g g.areDelay < g.areTimer),
      stepNewPiece_y, stepNewPiece_actualY]
    simp
  · rw [if_neg (by assumption : ¬ TICKS g g.areDelay < g.areTimer)]
    have hst : ({g with areTimer := g.areTimer + 1} : FSGame).state = g.state := rfl
    rw [hst, hs] at hFL
    rcases hFL with hf | hf <;> exact absurd hf (by decide)

theorem stepLines_y_floor (g : FSGame)
    (hFL : (stepLines g).state = GameState.FALLING ∨
      (stepLines g).state = GameState.LANDED) :
    (stepLines g).y = ⌊(stepLines g).actualY⌋ := by
  unfold stepLines at hFL ⊢
  dsimp only at hFL ⊢
  split at hFL
  · rw [if_pos (by assumption : (lockPiece g).linesCleared +
        (clearLines (lockPiece g).fieldWidth (lockPiece g).fieldHeight
          (lockPiece g).b).1 < (lockPiece g).goal)]
    exact stepAre_y_floor _ rfl hFL
  · rcases hFL with hf | hf <;> simp at hf

/-- C4: after any tick that returns in state `FALLING` or `LANDED`, the
integer `y` equals `⌊actualY⌋` — a successful rotation commits a kicked `y`
without touching `actualY`, but the gravity application in the same tick
re-establishes the relation. Stated for nonnegative `actualY` and
nonnegative gravity contributions (the engine's operating domain; the C
truncating cast equals the floor there). -/
theorem tick_y_floor (f : FSGame) (i : FSInput)
    (h1 : 0 ≤ f.actualY) (h2 : 0 ≤ f.gravity) (h3 : 0 ≤ i.gravity)
    (hs : (fsGameTick f i).state = GameState.FALLING ∨
      (fsGameTick f i).state = GameState.LANDED) :
    (fsGameTick f i).y = ⌊(fsGameTick f i).actualY⌋ := by
  unfold fsGameTick at hs ⊢
  dsimp only at hs ⊢
  rcases hst : f.state with _ | _ | _ | _ | _ | _ | _ | _ | _ | _ <;>
    rw [hst] at hs <;> dsimp only at hs ⊢
  · simp at hs
  · simp at hs
  · exact stepFalling_y_floor _ i h1 h2 h3
  · exact stepFalling_y_floor _ i h1 h2 h3
  · exact stepAre_y_floor _ rfl hs
  · rw [stepNewPiece_y, stepNewPiece_actualY]
    simp
  · exact stepLines_y_floor _ hs
  · simp at hs
  · simp at hs
  · simp at hs

/-! ### C5: the line goal caps `linesCleared` and triggers game over -/

theorem stepLines_goal_reached (g : FSGame)
    (h : g.goal ≤ g.linesCleared +
      (clearLines g.fieldWidth g.fieldHeight (lockPiece g).b).1) :
    (stepLines g).state = GameState.GAMEOVER := by
  unfold stepLines
  dsimp only
  have e1 : (lockPiece g).linesCleared = g.linesCleared := rfl
  have e2 : (lockPiece g).goal = g.goal := rfl
  have e3 : (clearLines (lockPiece g).fieldWidth (lockPiece g).fieldHeight
      (lockPiece g).b).1
      = (clearLines g.fieldWidth g.fieldHeight (lockPiece g).b).1 := rfl
  rw [if_neg (by omega : ¬ ((lockPiece g).linesCleared +
      (clearLines (lockPiece g).fieldWidth (lockPiece g).fieldHeight
        (lockPiece g).b).1 < (lockPiece g).goal))]

/-- C5: (a) as long as the game is not over, `linesCleared ≤ goal` is
preserved by every tick; (b) on the tick whose `LINES` processing brings
`linesCleared` (after adding the new `clearLines` count) to the goal or
beyond, the state becomes `GAMEOVER` within that same tick call. -/
theorem tick_goal_guard (f : FSGame) (i : FSInput) :
    ((f.state ≠ GameState.GAMEOVER → f.linesCleared ≤ f.goal) →
      (fsGameTick f i).state ≠ GameState.GAMEOVER →
      (fsGameTick f i).linesCleared ≤ (fsGameTick f i).goal) ∧
    (f.state = GameState.LINES →
      f.goal ≤ f.linesCleared +
        (clearLines f.fieldWidth f.fieldHeight (lockPiece f).b).1 →
      (fsGameTick f i).state = GameState.GAMEOVER) := by
  refine ⟨?_, ?_⟩
  · intro hP hne
    unfold fsGameTick at hne ⊢
    dsimp only at hne ⊢
    rcases hst : f.state with _ | _ | _ | _ | _ | _ | _ | _ | _ | _ <;>
      rw [hst] at hne <;> dsimp only at hne ⊢
    · exact hP (by simp [hst])
    · exact hP (by simp [hst])
    · rw [stepFalling_linesCleared, stepFalling_goal]
      exact hP (by simp [hst])
    · rw [stepFalling_linesCleared, stepFalling_goal]
      exact hP (by simp [hst])
    · rw [stepAre_linesCleared, stepAre_goal]
      exact hP (by simp [hst])
    · rw [stepNewPiece_linesCleared, stepNewPiece_goal]
      exact hP (by simp [hst])
    · unfold stepLines at hne ⊢
      dsimp only at hne ⊢
      split at hne
      · rename_i hlt
        rw [if_pos hlt, stepAre_linesCleared, stepAre_goal]
        dsimp only
        omega
      · exact absurd rfl hne
    · exact hP (by simp [hst])
    · exact absurd rfl hne
    · exact hP (by simp [hst])
  · intro hsL hgoal
    unfold fsGameTick
    dsimp only
    rw [hsL]
    dsimp only
    exact stepLines_goal_reached _ hgoal

/-! ### C6: ARE timing -/

/-- Iterate `k` consecutive calls to `fsGameTick`, the `n`-th using input `inp n`. -/
def tickIter (inp : Nat → FSInput) : Nat → FSGame → FSGame
  | 0, f => f
  | k + 1, f => fsGameTick (tickIter inp k f) (inp k)

/-- A tick in state `ARE` whose (pre-increment) `areTimer` has not yet
exceeded `TICKS areDelay` only increments the timer. -/
theorem tick_are_wait (f : FSGame) (i : FSInput) (hs : f.state = GameState.ARE)
    (h : f.areTimer ≤ TICKS f f.areDelay) :
    fsGameTick f i =
      { f with
        areTimer := f.areTimer + 1
        totalTicks := f.totalTicks + 1
        lastInput := i } := by
  unfold TICKS at h
  unfold fsGameTick stepAre TICKS
  dsimp only
  rw [hs]
  dsimp only
  split
  · rename_i hlt
    exact absurd hlt (by omega)
  · rfl

/-- A tick in state `ARE` whose `areTimer` exceeds `TICKS areDelay` resets
the timer and spawns a new piece within the same call: the head of the
preview queue becomes the active piece at the spawn position, and the state
leaves `ARE` for `FALLING` (or `GAMEOVER` on a spawn collision). -/
theorem tick_are_fire (f : FSGame) (i : FSInput) (hs : f.state = GameState.ARE)
    (h : TICKS f f.areDelay < f.areTimer) :
    (fsGameTick f i).piece = f.nextPiece.headD Piece.NONE ∧
    (fsGameTick f i).y = 0 ∧
    (fsGameTick f i).actualY = 0 ∧
    (fsGameTick f i).x = (f.fieldWidth : Int) / 2 - 1 ∧
    ((fsGameTick f i).state = GameState.FALLING ∨
      (fsGameTick f i).state = GameState.GAMEOVER) := by
  unfold TICKS at h
  unfold fsGameTick stepAre TICKS
  dsimp only
  rw [hs]
  dsimp only
  split
  · unfold stepNewPiece newPiece
    dsimp only
    split
    · exact ⟨rfl, rfl, rfl, rfl, Or.inr rfl⟩
    · exact ⟨rfl, rfl, rfl, rfl, Or.inl rfl⟩
  · rename_i hn
    exact absurd h hn

theorem tickIter_are (f : FSGame) (inp : Nat → FSInput)
    (hs : f.state = GameState.ARE) (h0 : f.areTimer = 0) :
    ∀ k, k ≤ TICKS f f.areDelay + 1 →
      (tickIter inp k f).state = GameState.ARE ∧
      (tickIter inp k f).areTimer = k ∧
      (tickIter inp k f).areDelay = f.areDelay ∧
      (tickIter inp k f).msPerTick = f.msPerTick ∧
      (tickIter inp k f).nextPiece = f.nextPiece ∧
      (tickIter inp k f).fieldWidth = f.fieldWidth := by
  intro k
  induction k with
  | zero => intro _; exact ⟨hs, h0, rfl, rfl, rfl, rfl⟩
  | succ k ih =>
    intro hk
    obtain ⟨s1, s2, s3, s4, s5, s6⟩ := ih (by omega)
    have hwait := tick_are_wait (tickIter inp k f) (inp k) s1 (by
      rw [s2]
      show k ≤ TICKS (tickIter inp k f) (tickIter inp k f).areDelay
      unfold TICKS
      rw [s3, s4]
      unfold TICKS at hk
      omega)
    have heq : tickIter inp (k + 1) f =
        { tickIter inp k f with
          areTimer := (tickIter inp k f).areTimer + 1
          totalTicks := (tickIter inp k f).totalTicks + 1
          lastInput := inp k } := hwait
    rw [heq]
    refine ⟨s1, ?_, s3, s4, s5, s6⟩
    show (tickIter inp k f).areTimer + 1 = k + 1
    rw [s2]

/-- C6 (amended): entering `ARE` with `areTimer = 0`, the engine stays in
`ARE` with `areTimer = k` after each of the first `TICKS(areDelay) + 1`
ticks — the post-increment comparison `areTimer++ > TICKS(areDelay)` uses
the pre-increment value — and the `TICKS(areDelay) + 2`-nd tick leaves
`ARE` and spawns the next preview piece within that same call. -/
theorem are_delay_spawn (f : FSGame) (inp : Nat → FSInput)
    (hs : f.state = GameState.ARE) (h0 : f.areTimer = 0) :
    (∀ k, k ≤ TICKS f f.areDelay + 1 →
      (tickIter inp k f).state = GameState.ARE ∧
      (tickIter inp k f).areTimer = k) ∧
    ((tickIter inp (TICKS f f.areDelay + 2) f).piece
        = f.nextPiece.headD Piece.NONE ∧
      (tickIter inp (TICKS f f.areDelay + 2) f).y = 0 ∧
      (tickIter inp (TICKS f f.areDelay + 2) f).actualY = 0 ∧
      (tickIter inp (TICKS f f.areDelay + 2) f).x
        = (f.fieldWidth : Int) / 2 - 1 ∧
      ((tickIter inp (TICKS f f.areDelay + 2) f).state = GameState.FALLING ∨
        (tickIter inp (TICKS f f.areDelay + 2) f).state
          = GameState.GAMEOVER)) := by
  have hmain := tickIter_are f inp hs h0
  constructor
  · intro k hk
    obtain ⟨s1, s2, _⟩ := hmain k hk
    exact ⟨s1, s2⟩
  · obtain ⟨s1, s2, s3, s4, s5, s6⟩ := hmain (TICKS f f.areDelay + 1) (by omega)
    have hfire := tick_are_fire (tickIter inp (TICKS f f.areDelay + 1) f)
      (inp (TICKS f f.areDelay + 1)) s1 (by
        rw [s2]
        show TICKS (tickIter inp (TICKS f f.areDelay + 1) f)
          (tickIter inp (TICKS f f.areDelay + 1) f).areDelay
          < TICKS f f.areDelay + 1
        unfold TICKS
        unfold TICKS at s3 s4
        rw [s3, s4]
        omega)
    obtain ⟨p1, p2, p3, p4, p5⟩ := hfire
    have heq : tickIter inp (TICKS f f.areDelay + 2) f =
        fsGameTick (tickIter inp (TICKS f f.areDelay + 1) f)
          (inp (TICKS f f.areDelay + 1)) := rfl
    rw [heq]
    refine ⟨?_, p2, p3, ?_, p5⟩
    · rw [p1, s5]
    · rw [p4, s6]

/-! ### Concrete games for the end-to-end scenarios and witnesses -/

/-- Rotation system for the concrete scenarios. Modelled from the spec: the
piece offsets of `fs.c` are SRS-native, so SRS uses `entryTheta = 0` for
every piece (`fsTables.c` is not in `src/`); the scenarios below never
rotate successfully, so every kick index selects the empty table. -/
def scenarioRS : FSRotationSystem where
  entryTheta := fun _ => 0
  kicksL := fun _ => -1
  kicksR := fun _ => -1
  kicksH := fun _ => -1
  kickTables := fun _ => emptyWallkickTable

/-- An empty field. -/
def emptyField : Nat → Nat → Nat := fun _ _ => 0

/-- A 10×20 game in the spec's scenario configuration (`msPerTick = 16`,
`gravity = 0`, `lockDelay = 500`, `lockStyle = STEP`), with a falling `T`
at the spawn position and preview queue headed by `I`. -/
def g0 : FSGame where
  b := emptyField
  fieldWidth := 10
  fieldHeight := 20
  nextPiece := [Piece.I, Piece.J, Piece.L, Piece.O]
  randStream := fun _ => Piece.S
  randIndex := 0
  piece := Piece.T
  x := 4
  y := 0
  actualY := 0
  hardDropY := 18
  theta := 0
  finesse := 0
  finessePieceDirection := 0
  finessePieceRotation := 0
  msPerTick := 16
  areDelay := 0
  areTimer := 0
  totalTicks := 0
  lockStyle := LockStyle.STEP
  lockDelay := 500
  lockTimer := 0
  rotationSystem := scenarioRS
  gravity := 0
  state := GameState.FALLING
  lastInput := {}
  holdAvailable := true
  holdPiece := Piece.NONE
  linesCleared := 0
  blocksPlaced := 0
  goal := 40

/-- The all-zero input snapshot. -/
def inp0 : FSInput := {}

/-- A bare `HARD_DROP` flag with every other input zero, as claim C1 words
it. -/
def inpHardOnly : FSInput := { hardDrop := true }

/-- A hard-drop input as a host produces it: the `HARD_DROP` flag together
with an input-gravity contribution large enough to reach `hardDropY`. -/
def inpHard : FSInput := { hardDrop := true, gravity := 20 }

/-- Game `g0` with every field cell occupied, so any rotation attempt fails. -/
def gBlocked : FSGame := { g0 with b := fun _ _ => 2 }

/-- Game `g0` parked in `ARE` with a zero timer and `areDelay = 0`. -/
def gAre : FSGame := { g0 with state := GameState.ARE, areTimer := 0 }

/-- Game `g0` about to process `LINES` with the goal already met (`goal = 0`). -/
def gLines : FSGame := { g0 with state := GameState.LINES, goal := 0 }

/-- The post-reset state of scenario C1: `fsGameClear` leaves
`state = NEW_PIECE`, an empty field, and (with the randomizer forced) `I` at
the head of the preview queue. -/
def c1Init : FSGame := { g0 with state := GameState.NEW_PIECE }

/-- Input schedule for the amended C1 run: spawn tick, then the hard drop,
then the tick that processes `LINES`. -/
def c1Inputs : Nat → FSInput := fun n => if n = 1 then inpHard else inp0

/-- C1 (counterexample): after a reset (state `NEW_PIECE`), a single tick
whose only input is the `HARD_DROP` bit does not place a piece at all — the
`NEW_PIECE` dispatch only spawns and ends the tick, so `blocksPlaced` stays
0 and the expected post-conditions of the claim all fail. -/
theorem c1_single_tick_counterexample :
    ¬ ((fsGameTick c1Init inpHardOnly).blocksPlaced = 1 ∧
      (fsGameTick c1Init inpHardOnly).linesCleared = 0 ∧
      (∀ cx, 3 ≤ cx → cx < 7 →
        1 < (fsGameTick c1Init inpHardOnly).b 19 cx) ∧
      ((fsGameTick c1Init inpHardOnly).state = GameState.ARE ∨
        (fsGameTick c1Init inpHardOnly).state = GameState.NEW_PIECE)) := by
  decide

set_option maxHeartbeats 4000000 in
unseal Rat.add Rat.mul Rat.inv Rat.sub in
/-- C1 (amended): from the post-reset state with first piece `I`, the spawn
takes one tick; the hard-drop tick (HARD_DROP plus the host's input-gravity)
lands the piece and requests `LINES`; the next tick locks and clears. After
those three ticks row 19 holds the four I cells at columns 4..7 (not 3..6),
`blocksPlaced = 1`, `linesCleared = 0`, and the state is in
`{ARE, NEW_PIECE}`. -/
theorem c1_hard_drop_amended :
    (tickIter c1Inputs 3 c1Init).blocksPlaced = 1 ∧
    (tickIter c1Inputs 3 c1Init).linesCleared = 0 ∧
    (∀ cx, 4 ≤ cx → cx < 8 → 1 < (tickIter c1Inputs 3 c1Init).b 19 cx) ∧
    (tickIter c1Inputs 3 c1Init).b 19 3 = 0 ∧
    (tickIter c1Inputs 3 c1Init).b 19 8 = 0 ∧
    ((tickIter c1Inputs 3 c1Init).state = GameState.ARE ∨
      (tickIter c1Inputs 3 c1Init).state = GameState.NEW_PIECE) := by
  decide

/-- C6 (counterexample): with `areDelay = 0` and `areTimer = 0`, the
incremented timer (1) exceeds `ticks(areDelay)` (0), yet the tick neither
leaves `ARE` nor spawns — the code compares the pre-increment value. -/
theorem are_counterexample :
    (fsGameTick gAre inp0).state = GameState.ARE ∧
    (fsGameTick gAre inp0).piece = gAre.piece ∧
    gAre.areTimer + 1 > TICKS gAre gAre.areDelay := by
  decide

/-- Field for the `clearLines` witness: 2 wide, 3 tall, rows 0 and 2 full. -/
def c2Field : Nat → Nat → Nat := fun r c => if r = 1 ∧ c = 0 then 0 else 2

theorem clearLines_spec_witness :
    (clearLines 2 3 c2Field).1 =
      ((List.range 3).filter (fun y => rowFull c2Field 2 y)).length ∧
    (∀ r, r < 3 → ∀ c, c < 2 →
      (clearLines 2 3 c2Field).2 r c =
        if r < (clearLines 2 3 c2Field).1 then 0
        else c2Field
          ((survivors 2 3 c2Field).getD (r - (clearLines 2 3 c2Field).1) 0) c) ∧
    (∀ r, r < 3 → rowFull (clearLines 2 3 c2Field).2 2 r = false) :=
  clearLines_spec 2 3 c2Field (by decide) (by decide)

/-- Game for the gravity witness: a fractional accumulator. -/
def gGrav : FSGame := { g0 with actualY := 1 / 2 }

unseal Rat.add Rat.mul Rat.inv Rat.sub in
theorem doPieceGravity_spec_witness :
    (doPieceGravity gGrav 1).y = ⌊gravityNewY gGrav 1⌋ :=
  ((doPieceGravity_spec gGrav 1 (by decide)).2 (by decide)).2.1

unseal Rat.add Rat.mul Rat.inv Rat.sub in
theorem tick_y_floor_witness :
    (fsGameTick g0 inp0).y = ⌊(fsGameTick g0 inp0).actualY⌋ :=
  tick_y_floor g0 inp0 (by decide) (by decide) (by decide) (Or.inl (by decide))

theorem tick_goal_guard_witness :
    (fsGameTick gAre inp0).linesCleared ≤ (fsGameTick gAre inp0).goal ∧
    (fsGameTick gLines inp0).state = GameState.GAMEOVER :=
  ⟨(tick_goal_guard gAre inp0).1 (by decide) (by decide),
    (tick_goal_guard gLines inp0).2 rfl (by decide)⟩

theorem are_delay_spawn_witness :
    ((tickIter (fun _ => inp0) 1 gAre).state = GameState.ARE ∧
      (tickIter (fun _ => inp0) 1 gAre).areTimer = 1) ∧
    (tickIter (fun _ => inp0) (TICKS gAre gAre.areDelay + 2) gAre).piece
      = gAre.nextPiece.headD Piece.NONE :=
  ⟨(are_delay_spawn gAre (fun _ => inp0) rfl rfl).1 1 (by decide),
    ((are_delay_spawn gAre (fun _ => inp0) rfl rfl).2).1⟩

theorem doRotate_fail_id_witness : (doRotate gBlocked 1).1 = gBlocked :=
  doRotate_fail_id gBlocked 1 (Or.inl rfl) (by decide)

end FastStack
